import Mathlib

/-!
Verification of the prism-domain core of polyquad (`src/shapes/pri.hpp`).

The C++ class `PriDomain<T>` is templated over a real scalar type `T`; the
embedding mirrors this with a type variable `F` carrying a
`LinearOrderedField` instance, and passes the scalar operations the template
resolves by ADL (`sqrt`) and the collaborators defined outside this file's
source (`EvenLegendreP`, `JacobiP`, the base class's `rand`) as explicit
function parameters.  Parameter vectors are modelled as `ℕ → F`, the point
matrix as `ℕ → F × F × F` (one Cartesian row per index), and the aborting
`default` branch of each `switch` as the `none` case of an `Option` result.
-/

namespace Polyquad

variable {F : Type} [LinearOrderedField F]

/-- `PriDomain::bary_to_cart(p1, p2, p3, z) = {-p1 + p2 - p3, -p1 - p2 + p3, z}`. -/
def bary_to_cart (p1 p2 p3 z : F) : F × F × F :=
  (-p1 + p2 - p3, -p1 - p2 + p3, z)

/-- `PriDomain::npts_for_orbit[] = {1, 2, 3, 6, 6, 12}`. -/
def npts_for_orbit : List ℕ := [1, 2, 3, 6, 6, 12]

/-- `PriDomain::narg_for_orbit[] = {0, 1, 1, 2, 2, 3}`. -/
def narg_for_orbit : List ℕ := [0, 1, 1, 2, 2, 3]

/-- `PriDomain::validate_orbit(orb) { return orb(0) <= 1; }`. -/
def validate_orbit (orb : Fin 6 → ℕ) : Bool :=
  decide (orb 0 ≤ 1)

/-- The ordered list of rows the case `i` of `PriDomain::expand_orbit`'s switch
writes (entry `t` of the list is what is assigned to `pts.row(poff + t)`);
`none` models the aborting `default:` branch. -/
def orbit_rows (i aoff : ℕ) (args : ℕ → F) : Option (List (F × F × F)) :=
  match i with
  | 0 =>
    let a : F := 1 / 3
    some [bary_to_cart a a a 0]
  | 1 =>
    let a : F := 1 / 3
    let b := args aoff
    some [bary_to_cart a a a (-b), bary_to_cart a a a b]
  | 2 =>
    let a := args aoff
    some [bary_to_cart a a (1 - 2*a) 0, bary_to_cart a (1 - 2*a) a 0,
          bary_to_cart (1 - 2*a) a a 0]
  | 3 =>
    let a := args (aoff + 0)
    let b := args (aoff + 1)
    some [bary_to_cart a a (1 - 2*a) (-b), bary_to_cart a (1 - 2*a) a (-b),
          bary_to_cart (1 - 2*a) a a (-b), bary_to_cart a a (1 - 2*a) b,
          bary_to_cart a (1 - 2*a) a b, bary_to_cart (1 - 2*a) a a b]
  | 4 =>
    let a := args (aoff + 0)
    let b := args (aoff + 1)
    some [bary_to_cart a b (1 - a - b) 0, bary_to_cart a (1 - a - b) b 0,
          bary_to_cart b a (1 - a - b) 0, bary_to_cart b (1 - a - b) a 0,
          bary_to_cart (1 - a - b) a b 0, bary_to_cart (1 - a - b) b a 0]
  | 5 =>
    let a := args (aoff + 0)
    let b := args (aoff + 1)
    let c := args (aoff + 2)
    some [bary_to_cart a b (1 - a - b) (-c), bary_to_cart a (1 - a - b) b (-c),
          bary_to_cart b a (1 - a - b) (-c), bary_to_cart b (1 - a - b) a (-c),
          bary_to_cart (1 - a - b) a b (-c), bary_to_cart (1 - a - b) b a (-c),
          bary_to_cart a b (1 - a - b) c, bary_to_cart a (1 - a - b) b c,
          bary_to_cart b a (1 - a - b) c, bary_to_cart b (1 - a - b) a c,
          bary_to_cart (1 - a - b) a b c, bary_to_cart (1 - a - b) b a c]
  | _ => none

/-- Overwrite rows `poff, poff + 1, ...` of the point matrix with `rows`,
leaving every other row unchanged. -/
def write_rows (pts : ℕ → F × F × F) (poff : ℕ) (rows : List (F × F × F)) :
    ℕ → F × F × F :=
  fun n => if poff ≤ n then rows.getD (n - poff) (pts n) else pts n

/-- `PriDomain::expand_orbit(i, aoff, poff, args, pts)`: the switch selects the
orbit's rows and writes them at `poff`; the `default:` branch aborts (`none`). -/
def expand_orbit (i aoff poff : ℕ) (args : ℕ → F) (pts : ℕ → F × F × F) :
    Option (ℕ → F × F × F) :=
  (orbit_rows i aoff args).map (write_rows pts poff)

/-- Inverse of `bary_to_cart` for a barycentric triple summing to 1: recover
`(p1, p2, p3)` from a Cartesian row (the spec's check "recomputing the
barycentric coordinates of each output row"). -/
def bary_of_cart (v : F × F × F) : F × F × F :=
  (-(v.1 + v.2.1) / 2, (v.1 + 1) / 2, (v.2.1 + 1) / 2)

/-- Modelled from the spec: the scalar helper `clamp(l, x, u)` lives in the
repository's `utils` (not under `src/`); per the spec out-of-domain values
"are silently pulled back into range by `clamp`" and in-domain slices are
left unchanged, so `clamp` restricts `x` to the interval `[l, u]` and is the
identity there. -/
def clamp (l x u : F) : F :=
  if x < l then l else if u < x then u else x

/-- `PriDomain::clamp_arg(i, aoff, args)`: each case clamps its parameter
slice in source order (case 4 and 5 read the already-clamped `args(aoff + 0)`
when bounding `args(aoff + 1)`); the `default:` branch aborts (`none`). -/
def clamp_arg (i aoff : ℕ) (args : ℕ → F) : Option (ℕ → F) :=
  match i with
  | 0 => some args
  | 1 => some (Function.update args aoff (clamp 0 (args aoff) 1))
  | 2 => some (Function.update args aoff (clamp 0 (args aoff) (1/2)))
  | 3 =>
    let args1 := Function.update args aoff (clamp 0 (args aoff) (1/2))
    some (Function.update args1 (aoff + 1) (clamp 0 (args1 (aoff + 1)) 1))
  | 4 =>
    let args1 := Function.update args aoff (clamp 0 (args aoff) 1)
    some (Function.update args1 (aoff + 1)
      (clamp 0 (args1 (aoff + 1)) (1 - args1 aoff)))
  | 5 =>
    let args1 := Function.update args aoff (clamp 0 (args aoff) 1)
    let args2 := Function.update args1 (aoff + 1)
      (clamp 0 (args1 (aoff + 1)) (1 - args1 aoff))
    some (Function.update args2 (aoff + 2) (clamp 0 (args2 (aoff + 2)) 1))
  | _ => none

/-- The per-orbit parameter domain as the spec states it (orbit 1: `b ∈ [0,1]`;
orbit 2: `a ∈ [0,0.5]`; orbit 3: `a ∈ [0,0.5]`, `b ∈ [0,1]`; orbit 4:
`a ∈ [0,1]`, `b ∈ [0,1-a]`; orbit 5: orbit 4's rule plus `c ∈ [0,1]`). -/
def clamp_dom (i aoff : ℕ) (args : ℕ → F) : Prop :=
  match i with
  | 0 => True
  | 1 => 0 ≤ args aoff ∧ args aoff ≤ 1
  | 2 => 0 ≤ args aoff ∧ args aoff ≤ 1/2
  | 3 => (0 ≤ args aoff ∧ args aoff ≤ 1/2) ∧
      (0 ≤ args (aoff + 1) ∧ args (aoff + 1) ≤ 1)
  | 4 => (0 ≤ args aoff ∧ args aoff ≤ 1) ∧
      (0 ≤ args (aoff + 1) ∧ args (aoff + 1) ≤ 1 - args aoff)
  | 5 => ((0 ≤ args aoff ∧ args aoff ≤ 1) ∧
      (0 ≤ args (aoff + 1) ∧ args (aoff + 1) ≤ 1 - args aoff)) ∧
      (0 ≤ args (aoff + 2) ∧ args (aoff + 2) ≤ 1)
  | _ => False

/-- Ascending sort of three scalars, the effect of `std::sort(baryc, baryc + 3)`
in `PriDomain::sort_arg`. -/
def sort3 (a b c : F) : F × F × F :=
  if a ≤ b then
    if b ≤ c then (a, b, c)
    else if a ≤ c then (a, c, b)
    else (c, a, b)
  else
    if a ≤ c then (b, a, c)
    else if b ≤ c then (b, c, a)
    else (c, b, a)

/-- `PriDomain::sort_arg(i, aoff, args)`: for orbits 4 and 5 sort the triple
`(args(aoff), args(aoff+1), 1 - args(aoff) - args(aoff+1))` ascending and copy
the two smallest values back into the slice; otherwise do nothing. -/
def sort_arg (i aoff : ℕ) (args : ℕ → F) : ℕ → F :=
  if i = 4 ∨ i = 5 then
    let s := sort3 (args aoff) (args (aoff + 1))
      (1 - args aoff - args (aoff + 1))
    Function.update (Function.update args aoff s.1) (aoff + 1) s.2.1
  else args

/-- `PriDomain::seed_orbit(i, aoff, args)`.  The base class's random source
(`BaseDomain::rand`, not under `src/`) is modelled from the spec by oracles
indexed by the draw number: `randr k lo hi` is the `k`-th draw's
`rand(lo, hi)` and `rand0 k` the `k`-th draw's plain `rand()`; the scalar
`sqrt` the template resolves for `T` is the parameter `sqrtF`.  With these,
`seeda = rand(0, 0.5)`, `seedb = rand(0, 1/3)` and
`seedc = sqrt(1 - rand()^2)` exactly as in the source; the `default:` branch
aborts (`none`). -/
def seed_orbit (sqrtF : F → F) (randr : ℕ → F → F → F) (rand0 : ℕ → F)
    (i aoff : ℕ) (args : ℕ → F) : Option (ℕ → F) :=
  let seeda := fun k => randr k 0 (1/2)
  let seedb := fun k => randr k 0 (1/3)
  let seedc := fun k => sqrtF (1 - (rand0 k)^2)
  match i with
  | 0 => some args
  | 1 => some (Function.update args aoff (seedc 0))
  | 2 => some (Function.update args aoff (seeda 0))
  | 3 => some (Function.update (Function.update args aoff (seeda 0))
      (aoff + 1) (seedc 1))
  | 4 => some (Function.update (Function.update args aoff (seedb 0))
      (aoff + 1) (seedb 1))
  | 5 => some (Function.update (Function.update (Function.update args aoff
      (seedb 0)) (aoff + 1) (seedb 1)) (aoff + 2) (seedc 2))
  | _ => none

/-- The inner `j` loop's index list of `PriDomain::eval_orthob_block` for
outer index `i`: `j = i, i+1, ..., qdeg - i`. -/
def orthob_js (qdeg i : ℕ) : List ℕ :=
  List.range' i (qdeg + 1 - i - i)

/-- The innermost `k` loop's index list of `PriDomain::eval_orthob_block` for
indices `i, j`: `k = 0, 2, ..., ≤ qdeg - i - j`. -/
def orthob_ks (qdeg i j : ℕ) : List ℕ :=
  (List.range ((qdeg - i - j) / 2 + 1)).map fun k2 => 2 * k2

/-- The loop nest of `PriDomain::eval_orthob_block` from outer index `i` on,
with `fuel` outer iterations left and the recurrence state `pow2ip1` and
`pow1mqi` threaded exactly as in the source (`pow1mqi *= (1-b)*(1-b)`,
`pow2ip1 /= 4` after each outer iteration); one scalar point `(a, b, c)`
(post-remap), with the order-`n` evaluations of `EvenLegendreP` at a point
given by `LegP` and of `JacobiP(alpha, beta, ·)` by `JacP alpha beta`. -/
def eval_orthob_go (sqrtF : F → F) (LegP : ℕ → F → F)
    (JacP : ℕ → ℕ → ℕ → F → F) (qdeg : ℕ) (a b c : F) :
    ℕ → ℕ → F → F → List F
  | 0, _, _, _ => []
  | fuel + 1, i, pow2ip1, pow1mqi =>
    ((orthob_js qdeg i).flatMap fun j =>
      (orthob_ks qdeg i j).map fun k =>
        pow2ip1 * sqrtF (((2*i + 1) * (2*k + 1) * (i + j + 1) : ℕ) : F) *
          pow1mqi * LegP i a * JacP (2*i + 1) 0 j b * LegP k c) ++
      eval_orthob_go sqrtF LegP JacP qdeg a b c fuel (i + 2) (pow2ip1 / 4)
        (pow1mqi * ((1 - b) * (1 - b)))

/-- `PriDomain::eval_orthob_block` at one point `(p, q, r)`: remap
`a = (q != 1) ? 2*(1+p)/(1-q) - 1 : 0`, set `b = q`, `c = r`, start the
recurrences at `pow2ip1 = 0.5`, `pow1mqi = 1`, and run the loop nest
(`qdeg/2 + 1` outer iterations for `i = 0, 2, ..., ≤ qdeg`); entry `off` of
the list is the value written to `out.row(off)`. -/
def eval_orthob_block (sqrtF : F → F) (LegP : ℕ → F → F)
    (JacP : ℕ → ℕ → ℕ → F → F) (qdeg : ℕ) (p q r : F) : List F :=
  let a : F := if q = 1 then 0 else 2 * (1 + p) / (1 - q) - 1
  eval_orthob_go sqrtF LegP JacP qdeg a q r (qdeg / 2 + 1) 0 (1/2) 1

/-- `PriDomain::nbfn_for_qdeg(qdeg)`: the final value of the counter `n`
stepped once per innermost iteration of the same triple loop
(`i = 0, 2, ..., ≤ qdeg`; `j = i, ..., qdeg - i`; `k = 0, 2, ..., ≤
qdeg - i - j`). -/
def nbfn_for_qdeg (qdeg : ℕ) : ℕ :=
  ((List.range (qdeg / 2 + 1)).map fun i2 =>
    ((List.range' (2 * i2) (qdeg + 1 - 2 * i2 - 2 * i2)).map fun j =>
      (qdeg - 2 * i2 - j) / 2 + 1).sum).sum

/-- The `(i, j, k)` triples of `eval_orthob_block`'s loop nest in emission
order. -/
def orthob_triples (qdeg : ℕ) : List (ℕ × ℕ × ℕ) :=
  (List.range (qdeg / 2 + 1)).flatMap fun i2 =>
    (orthob_js qdeg (2 * i2)).flatMap fun j =>
      (orthob_ks qdeg (2 * i2) j).map fun k => (2 * i2, j, k)

/-! ### Helper lemmas -/

lemma write_rows_at (pts : ℕ → F × F × F) (poff : ℕ) (rows : List (F × F × F))
    (t : ℕ) : write_rows pts poff rows (poff + t) = rows.getD t (pts (poff + t)) := by
  unfold write_rows
  simp

lemma write_rows_frame (pts : ℕ → F × F × F) (poff : ℕ) (rows : List (F × F × F))
    (n : ℕ) (h : n < poff ∨ poff + rows.length ≤ n) :
    write_rows pts poff rows n = pts n := by
  unfold write_rows
  rcases h with h | h
  · rw [if_neg (by omega)]
  · rw [if_pos (by omega)]
    exact List.getD_eq_default _ _ (by omega)

lemma mset3_swap12 {α : Type} (x y z : α) :
    ({x, y, z} : Multiset α) = ({y, x, z} : Multiset α) := by
  simp only [Multiset.insert_eq_cons]
  exact Multiset.cons_swap x y _

lemma mset3_swap23 {α : Type} (x y z : α) :
    ({x, y, z} : Multiset α) = ({x, z, y} : Multiset α) := by
  simp only [Multiset.insert_eq_cons, ← Multiset.cons_zero]
  exact congrArg (Multiset.cons x) (Multiset.cons_swap y z 0)

lemma bary_of_cart_eq (x y z w : F) (h : x + y + z = 1) :
    bary_of_cart (bary_to_cart x y z w) = (x, y, z) := by
  unfold bary_of_cart bary_to_cart
  simp only [Prod.mk.injEq]
  refine ⟨by ring, by linear_combination -h/2, by linear_combination -h/2⟩

/-- C1: for orbit 4 with parameters `(a, b) = (args(aoff), args(aoff+1))`,
`expand_orbit` emits exactly the six permutation images of the barycentric
triple `(a, b, 1-a-b)` at axial coordinate `0`, converted by `bary_to_cart`:
recomputing the barycentric coordinates of the six output rows yields, in
emission order, the six permutations of the triple, every row has axial
coordinate `0`, and every row's recomputed barycentric multiset is
`{a, b, 1-a-b}` (at `(a, b) = (0.2, 0.3)`: the multiset `{0.2, 0.3, 0.5}`,
see the witness). -/
theorem expand_orbit4_six_perms (F : Type) [LinearOrderedField F]
    (aoff poff : ℕ) (args : ℕ → F) (pts : ℕ → F × F × F) (a b : F)
    (ha : args (aoff + 0) = a) (hb : args (aoff + 1) = b) :
    ∃ f, expand_orbit 4 aoff poff args pts = some f ∧
      ((List.range 6).map fun t => bary_of_cart (f (poff + t))) =
        [(a, b, 1 - a - b), (a, 1 - a - b, b), (b, a, 1 - a - b),
         (b, 1 - a - b, a), (1 - a - b, a, b), (1 - a - b, b, a)] ∧
      ((List.range 6).map fun t => (f (poff + t)).2.2) = List.replicate 6 0 ∧
      ∀ t, t < 6 →
        ({(bary_of_cart (f (poff + t))).1, (bary_of_cart (f (poff + t))).2.1,
          (bary_of_cart (f (poff + t))).2.2} : Multiset F) = {a, b, 1 - a - b} := by
  subst ha hb
  set a := args (aoff + 0) with ha'
  set b := args (aoff + 1) with hb'
  refine ⟨write_rows pts poff
    [bary_to_cart a b (1 - a - b) 0, bary_to_cart a (1 - a - b) b 0,
     bary_to_cart b a (1 - a - b) 0, bary_to_cart b (1 - a - b) a 0,
     bary_to_cart (1 - a - b) a b 0, bary_to_cart (1 - a - b) b a 0],
    rfl, ?_, ?_, ?_⟩
  · have h6 : List.range 6 = [0, 1, 2, 3, 4, 5] := rfl
    rw [h6]
    simp only [List.map_cons, List.map_nil, write_rows_at]
    simp only [List.getD_cons_zero, List.getD_cons_succ]
    rw [bary_of_cart_eq a b (1 - a - b) 0 (by ring),
      bary_of_cart_eq a (1 - a - b) b 0 (by ring),
      bary_of_cart_eq b a (1 - a - b) 0 (by ring),
      bary_of_cart_eq b (1 - a - b) a 0 (by ring),
      bary_of_cart_eq (1 - a - b) a b 0 (by ring),
      bary_of_cart_eq (1 - a - b) b a 0 (by ring)]
  · have h6 : List.range 6 = [0, 1, 2, 3, 4, 5] := rfl
    rw [h6]
    simp only [List.map_cons, List.map_nil, write_rows_at]
    simp only [List.getD_cons_zero, List.getD_cons_succ]
    rfl
  · intro t ht
    interval_cases t <;>
      simp only [write_rows_at, List.getD_cons_zero, List.getD_cons_succ]
    · rw [bary_of_cart_eq a b (1 - a - b) 0 (by ring)]
    · rw [bary_of_cart_eq a (1 - a - b) b 0 (by ring)]
      exact mset3_swap23 a (1 - a - b) b
    · rw [bary_of_cart_eq b a (1 - a - b) 0 (by ring)]
      exact mset3_swap12 b a (1 - a - b)
    · rw [bary_of_cart_eq b (1 - a - b) a 0 (by ring)]
      exact (mset3_swap23 b (1 - a - b) a).trans (mset3_swap12 b a (1 - a - b))
    · rw [bary_of_cart_eq (1 - a - b) a b 0 (by ring)]
      exact (mset3_swap12 (1 - a - b) a b).trans (mset3_swap23 a (1 - a - b) b)
    · rw [bary_of_cart_eq (1 - a - b) b a 0 (by ring)]
      exact ((mset3_swap12 (1 - a - b) b a).trans
        (mset3_swap23 b (1 - a - b) a)).trans (mset3_swap12 b a (1 - a - b))

/-- Witness for C1 at `(a, b) = (0.2, 0.3)`: every output row's recomputed
barycentric multiset is `{0.2, 0.3, 0.5}`. -/
theorem expand_orbit4_six_perms_witness :
    ∃ f, expand_orbit 4 0 0
        (fun n => if n = 0 then (1 : ℚ)/5 else if n = 1 then 3/10 else 0)
        (fun _ => ((0 : ℚ), (0 : ℚ), (0 : ℚ))) = some f ∧
      ∀ t, t < 6 →
        ({(bary_of_cart (f t)).1, (bary_of_cart (f t)).2.1,
          (bary_of_cart (f t)).2.2} : Multiset ℚ) = {1/5, 3/10, 1/2} := by
  obtain ⟨f, hf, hmap, hz, hms⟩ :=
    expand_orbit4_six_perms ℚ 0 0
      (fun n => if n = 0 then (1 : ℚ)/5 else if n = 1 then 3/10 else 0)
      (fun _ => ((0 : ℚ), (0 : ℚ), (0 : ℚ))) (1/5) (3/10) rfl rfl
  refine ⟨f, hf, fun t ht => ?_⟩
  have h := hms t ht
  rw [Nat.zero_add] at h
  rw [h, show (1 : ℚ) - 1/5 - 3/10 = 1/2 by norm_num]

/-- C4: for every orbit id `i < 6`, `expand_orbit` succeeds, writes exactly the
contiguous rows `poff .. poff + npts_for_orbit[i] - 1` (every other row of the
point matrix is returned unchanged), and reads exactly the
`narg_for_orbit[i]` parameters starting at `aoff` (any parameter vector
agreeing there yields the same result); the parameter vector itself is never
written (`expand_orbit` only returns a new point matrix). -/
theorem expand_orbit_frame (F : Type) [LinearOrderedField F]
    (i aoff poff : ℕ) (args : ℕ → F) (pts : ℕ → F × F × F) (hi : i < 6) :
    ∃ f, expand_orbit i aoff poff args pts = some f ∧
      (∀ n, n < poff ∨ poff + npts_for_orbit.getD i 0 ≤ n → f n = pts n) ∧
      (∀ args' : ℕ → F,
        (∀ m, m < narg_for_orbit.getD i 0 → args' (aoff + m) = args (aoff + m)) →
        expand_orbit i aoff poff args' pts = some f) := by
  interval_cases i <;>
    refine ⟨_, rfl, fun n hn => write_rows_frame _ _ _ _
      (by simpa [npts_for_orbit] using hn), fun args' hargs => ?_⟩
  · rfl
  · have h : orbit_rows 1 aoff args' = orbit_rows 1 aoff args := by
      simp only [orbit_rows]
      rw [show args' aoff = args aoff from by simpa using hargs 0 (by decide)]
    unfold expand_orbit
    rw [h]
    rfl
  · have h : orbit_rows 2 aoff args' = orbit_rows 2 aoff args := by
      simp only [orbit_rows]
      rw [show args' aoff = args aoff from by simpa using hargs 0 (by decide)]
    unfold expand_orbit
    rw [h]
    rfl
  · have h : orbit_rows 3 aoff args' = orbit_rows 3 aoff args := by
      simp only [orbit_rows]
      rw [hargs 0 (by decide), hargs 1 (by decide)]
    unfold expand_orbit
    rw [h]
    rfl
  · have h : orbit_rows 4 aoff args' = orbit_rows 4 aoff args := by
      simp only [orbit_rows]
      rw [hargs 0 (by decide), hargs 1 (by decide)]
    unfold expand_orbit
    rw [h]
    rfl
  · have h : orbit_rows 5 aoff args' = orbit_rows 5 aoff args := by
      simp only [orbit_rows]
      rw [hargs 0 (by decide), hargs 1 (by decide), hargs 2 (by decide)]
    unfold expand_orbit
    rw [h]
    rfl

/-- Witness for C4 at orbit 5, `aoff = 1`, `poff = 2`, over `ℚ`. -/
theorem expand_orbit_frame_witness :
    ∃ f, expand_orbit 5 1 2 (fun n => (n : ℚ))
        (fun n => ((n : ℚ), (0 : ℚ), (0 : ℚ))) = some f ∧
      (∀ n, n < 2 ∨ 2 + npts_for_orbit.getD 5 0 ≤ n →
        f n = ((n : ℚ), (0 : ℚ), (0 : ℚ))) ∧
      (∀ args' : ℕ → ℚ,
        (∀ m, m < narg_for_orbit.getD 5 0 → args' (1 + m) = ((1 + m : ℕ) : ℚ)) →
        expand_orbit 5 1 2 args' (fun n => ((n : ℚ), (0 : ℚ), (0 : ℚ))) = some f) :=
  expand_orbit_frame ℚ 5 1 2 (fun n => (n : ℚ))
    (fun n => ((n : ℚ), (0 : ℚ), (0 : ℚ))) (by norm_num)

lemma le_clamp (l x u : F) (h : l ≤ u) : l ≤ clamp l x u := by
  unfold clamp
  split_ifs <;> linarith

lemma clamp_le (l x u : F) (h : l ≤ u) : clamp l x u ≤ u := by
  unfold clamp
  split_ifs <;> linarith

lemma clamp_eq_self (l x u : F) (h1 : l ≤ x) (h2 : x ≤ u) : clamp l x u = x := by
  unfold clamp
  split_ifs <;> linarith

lemma clamp_arg_mem (i aoff : ℕ) (args : ℕ → F) (hi : i < 6) :
    ∃ g, clamp_arg i aoff args = some g ∧ clamp_dom i aoff g := by
  have h1 : aoff ≠ aoff + 1 := by omega
  have h2 : aoff + 1 ≠ aoff := by omega
  have h3 : aoff ≠ aoff + 2 := by omega
  have h4 : aoff + 1 ≠ aoff + 2 := by omega
  have h5 : aoff + 2 ≠ aoff := by omega
  have h6 : aoff + 2 ≠ aoff + 1 := by omega
  interval_cases i
  · exact ⟨args, rfl, trivial⟩
  · refine ⟨_, rfl, ?_⟩
    simp only [clamp_dom, Function.update_same]
    exact ⟨le_clamp _ _ _ (by norm_num), clamp_le _ _ _ (by norm_num)⟩
  · refine ⟨_, rfl, ?_⟩
    simp only [clamp_dom, Function.update_same]
    exact ⟨le_clamp _ _ _ (by norm_num), clamp_le _ _ _ (by norm_num)⟩
  · refine ⟨_, rfl, ?_⟩
    simp only [clamp_dom, Function.update_same, Function.update_noteq h1,
      Function.update_noteq h2]
    exact ⟨⟨le_clamp _ _ _ (by norm_num), clamp_le _ _ _ (by norm_num)⟩,
      ⟨le_clamp _ _ _ (by norm_num), clamp_le _ _ _ (by norm_num)⟩⟩
  · refine ⟨_, rfl, ?_⟩
    simp only [clamp_dom, Function.update_same, Function.update_noteq h1,
      Function.update_noteq h2]
    have hA := clamp_le (0 : F) (args aoff) 1 (by norm_num)
    exact ⟨⟨le_clamp _ _ _ (by norm_num), clamp_le _ _ _ (by norm_num)⟩,
      ⟨le_clamp _ _ _ (by linarith), clamp_le _ _ _ (by linarith)⟩⟩
  · refine ⟨_, rfl, ?_⟩
    simp only [clamp_dom, Function.update_same, Function.update_noteq h1,
      Function.update_noteq h2, Function.update_noteq h3,
      Function.update_noteq h4, Function.update_noteq h5,
      Function.update_noteq h6]
    have hA := clamp_le (0 : F) (args aoff) 1 (by norm_num)
    exact ⟨⟨⟨le_clamp _ _ _ (by norm_num), clamp_le _ _ _ (by norm_num)⟩,
      ⟨le_clamp _ _ _ (by linarith), clamp_le _ _ _ (by linarith)⟩⟩,
      ⟨le_clamp _ _ _ (by norm_num), clamp_le _ _ _ (by norm_num)⟩⟩

lemma clamp_arg_of_dom (i aoff : ℕ) (args : ℕ → F) (h : clamp_dom i aoff args) :
    clamp_arg i aoff args = some args := by
  rcases lt_or_ge i 6 with hlt | hge
  · interval_cases i
    · rfl
    · simp only [clamp_dom] at h
      simp only [clamp_arg]
      rw [clamp_eq_self _ _ _ h.1 h.2, Function.update_eq_self]
    · simp only [clamp_dom] at h
      simp only [clamp_arg]
      rw [clamp_eq_self _ _ _ h.1 h.2, Function.update_eq_self]
    · simp only [clamp_dom] at h
      simp only [clamp_arg]
      rw [clamp_eq_self _ _ _ h.1.1 h.1.2, Function.update_eq_self,
        clamp_eq_self _ _ _ h.2.1 h.2.2, Function.update_eq_self]
    · simp only [clamp_dom] at h
      simp only [clamp_arg]
      rw [clamp_eq_self _ _ _ h.1.1 h.1.2, Function.update_eq_self,
        clamp_eq_self _ _ _ h.2.1 h.2.2, Function.update_eq_self]
    · simp only [clamp_dom] at h
      simp only [clamp_arg]
      rw [clamp_eq_self _ _ _ h.1.1.1 h.1.1.2, Function.update_eq_self,
        clamp_eq_self _ _ _ h.1.2.1 h.1.2.2, Function.update_eq_self,
        clamp_eq_self _ _ _ h.2.1 h.2.2, Function.update_eq_self]
  · exfalso
    obtain ⟨k, rfl⟩ : ∃ k, i = k + 6 := ⟨i - 6, by omega⟩
    exact h

/-- C5: for every orbit id `i < 6`, `clamp_arg` succeeds, its output slice lies
in the orbit's stated domain (orbit 1: `b ∈ [0,1]`; orbit 2: `a ∈ [0,0.5]`;
orbit 3: `a ∈ [0,0.5]`, `b ∈ [0,1]`; orbit 4: `a ∈ [0,1]`, `b ∈ [0,1-a]` with
`a` the already-clamped value; orbit 5: orbit 4's rule plus `c ∈ [0,1]`;
orbit 0: nothing), and it is the identity on parameter vectors whose slice is
already inside the domain. -/
theorem clamp_arg_dom_id (F : Type) [LinearOrderedField F]
    (i aoff : ℕ) (args : ℕ → F) (hi : i < 6) :
    ∃ g, clamp_arg i aoff args = some g ∧ clamp_dom i aoff g ∧
      (clamp_dom i aoff args → clamp_arg i aoff args = some args) := by
  obtain ⟨g, hg, hd⟩ := clamp_arg_mem i aoff args hi
  exact ⟨g, hg, hd, fun h => clamp_arg_of_dom i aoff args h⟩

/-- Witness for C5 at orbit 4 with the out-of-range slice `(7, 7)`. -/
theorem clamp_arg_dom_id_witness :
    ∃ g, clamp_arg 4 0 (fun _ => (7 : ℚ)) = some g ∧ clamp_dom 4 0 g ∧
      (clamp_dom 4 0 (fun _ => (7 : ℚ)) →
        clamp_arg 4 0 (fun _ => (7 : ℚ)) = some (fun _ => (7 : ℚ))) :=
  clamp_arg_dom_id ℚ 4 0 (fun _ => (7 : ℚ)) (by norm_num)

/-- C6: `clamp_arg` is idempotent for every orbit id `i < 6` and arbitrary
input parameters, including the coupled orbit-4/5 case where the bound on `b`
depends on the clamped value of `a`. -/
theorem clamp_arg_idem (F : Type) [LinearOrderedField F]
    (i aoff : ℕ) (args : ℕ → F) (hi : i < 6) :
    (clamp_arg i aoff args).bind (clamp_arg i aoff) = clamp_arg i aoff args := by
  obtain ⟨g, hg, hd⟩ := clamp_arg_mem i aoff args hi
  rw [hg]
  exact clamp_arg_of_dom i aoff g hd

/-- Witness for C6 at orbit 4 with the out-of-range slice `(7, 7)`. -/
theorem clamp_arg_idem_witness :
    (clamp_arg 4 0 (fun _ => (7 : ℚ))).bind (clamp_arg 4 0) =
      clamp_arg 4 0 (fun _ => (7 : ℚ)) :=
  clamp_arg_idem ℚ 4 0 (fun _ => (7 : ℚ)) (by norm_num)

lemma sort3_sorted (a b c : F) :
    (sort3 a b c).1 ≤ (sort3 a b c).2.1 ∧ (sort3 a b c).2.1 ≤ (sort3 a b c).2.2 := by
  unfold sort3
  split_ifs <;> refine ⟨?_, ?_⟩ <;> dsimp only <;> linarith

lemma sort3_perm (a b c : F) :
    [(sort3 a b c).1, (sort3 a b c).2.1, (sort3 a b c).2.2].Perm [a, b, c] := by
  unfold sort3
  split_ifs <;> dsimp only
  · exact List.Perm.refl _
  · exact List.Perm.cons a (List.Perm.swap b c [])
  · exact (List.Perm.swap a c [b]).trans (List.Perm.cons a (List.Perm.swap b c []))
  · exact List.Perm.swap a b [c]
  · exact (List.Perm.cons b (List.Perm.swap a c [])).trans (List.Perm.swap a b [c])
  · exact (List.Perm.swap b c [a]).trans
      ((List.Perm.cons b (List.Perm.swap a c [])).trans (List.Perm.swap a b [c]))

lemma sort3_sum (a b c : F) :
    (sort3 a b c).1 + (sort3 a b c).2.1 + (sort3 a b c).2.2 = a + b + c := by
  unfold sort3
  split_ifs <;> dsimp only <;> ring

lemma sorted_triple_ext (u1 u2 u3 : F) (h12 : u1 ≤ u2) (h23 : u2 ≤ u3) :
    List.Sorted (· ≤ ·) [u1, u2, u3] := by
  refine List.sorted_cons.mpr ⟨?_, List.sorted_cons.mpr ⟨?_, ?_⟩⟩
  · intro b hb
    rcases List.mem_cons.mp hb with rfl | hb
    · exact h12
    · rcases List.mem_singleton.mp hb with rfl
      exact h12.trans h23
  · intro b hb
    rcases List.mem_singleton.mp hb with rfl
    exact h23
  · exact List.sorted_singleton _

lemma list3_coe {α : Type} (x y z : α) :
    ((([x, y, z] : List α) : Multiset α)) = ({x, y, z} : Multiset α) := rfl

lemma sort3_mset (a b c : F) :
    ({(sort3 a b c).1, (sort3 a b c).2.1, (sort3 a b c).2.2} : Multiset F) =
      {a, b, c} := by
  rw [← list3_coe, ← list3_coe]
  exact Multiset.coe_eq_coe.mpr (sort3_perm a b c)

lemma sort3_eq_of_mset (a b c a' b' c' : F)
    (h : ({a, b, c} : Multiset F) = {a', b', c'}) :
    sort3 a b c = sort3 a' b' c' := by
  have hp : [a, b, c].Perm [a', b', c'] := by
    rw [← Multiset.coe_eq_coe, list3_coe, list3_coe]
    exact h
  have hp2 := (sort3_perm a b c).trans (hp.trans (sort3_perm a' b' c').symm)
  have hs := sort3_sorted a b c
  have hs' := sort3_sorted a' b' c'
  have heq := List.eq_of_perm_of_sorted hp2
    (sorted_triple_ext _ _ _ hs.1 hs.2) (sorted_triple_ext _ _ _ hs'.1 hs'.2)
  have h1 : (sort3 a b c).1 = (sort3 a' b' c').1 := by
    simpa using congrArg (fun l => l.getD 0 0) heq
  have h2 : (sort3 a b c).2.1 = (sort3 a' b' c').2.1 := by
    simpa using congrArg (fun l => l.getD 1 0) heq
  have h3 : (sort3 a b c).2.2 = (sort3 a' b' c').2.2 := by
    simpa using congrArg (fun l => l.getD 2 0) heq
  have : ((sort3 a b c).1, (sort3 a b c).2.1, (sort3 a b c).2.2) =
      ((sort3 a' b' c').1, (sort3 a' b' c').2.1, (sort3 a' b' c').2.2) := by
    rw [h1, h2, h3]
  exact this

lemma sort_arg_val (i aoff : ℕ) (args : ℕ → F) (hi : i = 4 ∨ i = 5) :
    sort_arg i aoff args aoff =
      (sort3 (args aoff) (args (aoff + 1)) (1 - args aoff - args (aoff + 1))).1 ∧
    sort_arg i aoff args (aoff + 1) =
      (sort3 (args aoff) (args (aoff + 1)) (1 - args aoff - args (aoff + 1))).2.1 := by
  unfold sort_arg
  rw [if_pos hi]
  constructor
  · rw [Function.update_noteq (by omega : aoff ≠ aoff + 1), Function.update_same]
  · rw [Function.update_same]

/-- C7: for orbits 4 and 5, `sort_arg` rewrites the stored `(a, b)` to the two
smallest values of the ascending sort of `(a, b, 1-a-b)`: any two parameter
slices whose barycentric triples are the same multiset are mapped to identical
stored `(a, b)`, and the represented barycentric triple multiset is
unchanged. -/
theorem sort_arg_canonical (F : Type) [LinearOrderedField F]
    (i aoff aoff' : ℕ) (args args' : ℕ → F) (hi : i = 4 ∨ i = 5)
    (h : ({args aoff, args (aoff + 1), 1 - args aoff - args (aoff + 1)} : Multiset F) =
      {args' aoff', args' (aoff' + 1), 1 - args' aoff' - args' (aoff' + 1)}) :
    (sort_arg i aoff args aoff = sort_arg i aoff' args' aoff' ∧
     sort_arg i aoff args (aoff + 1) = sort_arg i aoff' args' (aoff' + 1)) ∧
    ({sort_arg i aoff args aoff, sort_arg i aoff args (aoff + 1),
      1 - sort_arg i aoff args aoff - sort_arg i aoff args (aoff + 1)} : Multiset F) =
      {args aoff, args (aoff + 1), 1 - args aoff - args (aoff + 1)} := by
  obtain ⟨hv1, hv2⟩ := sort_arg_val i aoff args hi
  obtain ⟨hw1, hw2⟩ := sort_arg_val i aoff' args' hi
  have hs := sort3_eq_of_mset _ _ _ _ _ _ h
  have hsum : (sort3 (args aoff) (args (aoff + 1))
      (1 - args aoff - args (aoff + 1))).1 +
      (sort3 (args aoff) (args (aoff + 1)) (1 - args aoff - args (aoff + 1))).2.1 +
      (sort3 (args aoff) (args (aoff + 1)) (1 - args aoff - args (aoff + 1))).2.2 =
      1 := by
    rw [sort3_sum]
    ring
  refine ⟨⟨?_, ?_⟩, ?_⟩
  · rw [hv1, hw1, hs]
  · rw [hv2, hw2, hs]
  · rw [hv1, hv2, show 1 - (sort3 (args aoff) (args (aoff + 1))
        (1 - args aoff - args (aoff + 1))).1 -
        (sort3 (args aoff) (args (aoff + 1))
        (1 - args aoff - args (aoff + 1))).2.1 =
        (sort3 (args aoff) (args (aoff + 1))
        (1 - args aoff - args (aoff + 1))).2.2 from by linarith]
    exact sort3_mset _ _ _

/-- Witness for C7: the slices `(0.3, 0.5)` and `(0.2, 0.3)` both represent
the barycentric multiset `{0.2, 0.3, 0.5}` and canonicalize to the same
stored pair. -/
theorem sort_arg_canonical_witness :
    (sort_arg 4 0 (fun n => if n = 0 then (3 : ℚ)/10 else if n = 1 then 1/2 else 0) 0 =
       sort_arg 4 0 (fun n => if n = 0 then (1 : ℚ)/5 else if n = 1 then 3/10 else 0) 0 ∧
     sort_arg 4 0 (fun n => if n = 0 then (3 : ℚ)/10 else if n = 1 then 1/2 else 0) (0 + 1) =
       sort_arg 4 0 (fun n => if n = 0 then (1 : ℚ)/5 else if n = 1 then 3/10 else 0) (0 + 1)) ∧
    ({sort_arg 4 0 (fun n => if n = 0 then (3 : ℚ)/10 else if n = 1 then 1/2 else 0) 0,
      sort_arg 4 0 (fun n => if n = 0 then (3 : ℚ)/10 else if n = 1 then 1/2 else 0) (0 + 1),
      1 - sort_arg 4 0 (fun n => if n = 0 then (3 : ℚ)/10 else if n = 1 then 1/2 else 0) 0 -
        sort_arg 4 0 (fun n => if n = 0 then (3 : ℚ)/10 else if n = 1 then 1/2 else 0) (0 + 1)} :
        Multiset ℚ) =
      {3/10, 1/2, 1 - 3/10 - 1/2} :=
  sort_arg_canonical ℚ 4 0 0
    (fun n => if n = 0 then (3 : ℚ)/10 else if n = 1 then 1/2 else 0)
    (fun n => if n = 0 then (1 : ℚ)/5 else if n = 1 then 3/10 else 0)
    (Or.inl rfl) (by
      show ({(3 : ℚ)/10, 1/2, 1 - 3/10 - 1/2} : Multiset ℚ) =
        {1/5, 3/10, 1 - 1/5 - 3/10}
      rw [show (1 : ℚ) - 3/10 - 1/2 = 1/5 by norm_num,
        show (1 : ℚ) - 1/5 - 3/10 = 1/2 by norm_num]
      exact (mset3_swap23 ((3 : ℚ)/10) (1/2) (1/5)).trans
        (mset3_swap12 ((3 : ℚ)/10) (1/5) (1/2)))

/-- C8: `validate_orbit` accepts an orbit-count vector exactly when
`orb(0) ≤ 1`; in particular `orb(0) = 2` is rejected and `orb(0) ∈ {0, 1}` is
accepted regardless of the other five counts. -/
theorem validate_orbit_iff :
    (∀ orb : Fin 6 → ℕ, validate_orbit orb = true ↔ orb 0 ≤ 1) ∧
    validate_orbit (fun j => if j = 0 then 2 else 0) = false ∧
    (∀ orb : Fin 6 → ℕ, orb 0 = 0 ∨ orb 0 = 1 → validate_orbit orb = true) := by
  refine ⟨fun orb => ?_, ?_, fun orb h => ?_⟩
  · simp [validate_orbit]
  · simp [validate_orbit]
  · rcases h with h | h <;> simp [validate_orbit, h]

/-- C9: for every orbit id outside `[0, 5]`, `expand_orbit`, `seed_orbit` and
`clamp_arg` reach the aborting `default:` branch (`none`, no normal return),
and for every orbit id in `[0, 5]` they return normally (`isSome`), so under
the caller contract `i < 6` none of them aborts. -/
theorem orbit_id_guard (F : Type) [LinearOrderedField F]
    (i aoff poff : ℕ) (args : ℕ → F) (pts : ℕ → F × F × F)
    (sqrtF : F → F) (randr : ℕ → F → F → F) (rand0 : ℕ → F) :
    (6 ≤ i →
      expand_orbit i aoff poff args pts = none ∧
      seed_orbit sqrtF randr rand0 i aoff args = none ∧
      clamp_arg i aoff args = none) ∧
    (i < 6 →
      (expand_orbit i aoff poff args pts).isSome = true ∧
      (seed_orbit sqrtF randr rand0 i aoff args).isSome = true ∧
      (clamp_arg i aoff args).isSome = true) := by
  constructor
  · intro h6
    obtain ⟨k, rfl⟩ : ∃ k, i = k + 6 := ⟨i - 6, by omega⟩
    exact ⟨rfl, rfl, rfl⟩
  · intro h6
    interval_cases i <;> exact ⟨rfl, rfl, rfl⟩

/-- C10: under exact real arithmetic, with `rand(lo, hi) ∈ [lo, hi]` and
`rand() ∈ [-1, 1]`, every parameter slice written by `seed_orbit` already lies
in `clamp_arg`'s domain for that orbit (in particular
`sqrt(1 - rand()^2) ∈ [0, 1]`, and for orbits 4 and 5 both `a` and `b` lie in
`[0, 1/3]`, so `b ≤ 1 - a`), hence `clamp_arg` right after `seed_orbit`
changes nothing. -/
theorem seed_in_clamp_dom (randr : ℕ → ℝ → ℝ → ℝ) (rand0 : ℕ → ℝ)
    (i aoff : ℕ) (args : ℕ → ℝ)
    (hr : ∀ k lo hi, lo ≤ hi → lo ≤ randr k lo hi ∧ randr k lo hi ≤ hi)
    (h0 : ∀ k, -1 ≤ rand0 k ∧ rand0 k ≤ 1) (hi : i < 6) :
    ∃ g, seed_orbit Real.sqrt randr rand0 i aoff args = some g ∧
      clamp_arg i aoff g = some g := by
  have hc : ∀ k, 0 ≤ Real.sqrt (1 - (rand0 k)^2) ∧
      Real.sqrt (1 - (rand0 k)^2) ≤ 1 := fun k =>
    ⟨Real.sqrt_nonneg _, Real.sqrt_le_one.mpr (by nlinarith [sq_nonneg (rand0 k)])⟩
  have ha : ∀ k, 0 ≤ randr k 0 (1/2) ∧ randr k 0 (1/2) ≤ 1/2 := fun k =>
    hr k 0 (1/2) (by norm_num)
  have hb : ∀ k, 0 ≤ randr k 0 (1/3) ∧ randr k 0 (1/3) ≤ 1/3 := fun k =>
    hr k 0 (1/3) (by norm_num)
  have h1 : aoff ≠ aoff + 1 := by omega
  have h3 : aoff ≠ aoff + 2 := by omega
  have h4 : aoff + 1 ≠ aoff + 2 := by omega
  interval_cases i
  · exact ⟨args, rfl, clamp_arg_of_dom 0 aoff args trivial⟩
  · refine ⟨_, rfl, clamp_arg_of_dom 1 aoff _ ?_⟩
    simp only [clamp_dom, Function.update_same]
    exact hc 0
  · refine ⟨_, rfl, clamp_arg_of_dom 2 aoff _ ?_⟩
    simp only [clamp_dom, Function.update_same]
    exact ha 0
  · refine ⟨_, rfl, clamp_arg_of_dom 3 aoff _ ?_⟩
    simp only [clamp_dom, Function.update_same, Function.update_noteq h1]
    exact ⟨ha 0, hc 1⟩
  · refine ⟨_, rfl, clamp_arg_of_dom 4 aoff _ ?_⟩
    simp only [clamp_dom, Function.update_same, Function.update_noteq h1]
    exact ⟨⟨(hb 0).1, (hb 0).2.trans (by norm_num)⟩,
      ⟨(hb 1).1, by linarith [(hb 0).2, (hb 1).2]⟩⟩
  · refine ⟨_, rfl, clamp_arg_of_dom 5 aoff _ ?_⟩
    simp only [clamp_dom, Function.update_same, Function.update_noteq h1,
      Function.update_noteq h3, Function.update_noteq h4]
    exact ⟨⟨⟨(hb 0).1, (hb 0).2.trans (by norm_num)⟩,
      ⟨(hb 1).1, by linarith [(hb 0).2, (hb 1).2]⟩⟩, hc 2⟩

/-- Witness for C10 at orbit 5 with `rand(lo, hi) = lo` and `rand() = 0`. -/
theorem seed_in_clamp_dom_witness :
    ∃ g, seed_orbit Real.sqrt (fun _ lo _ => lo) (fun _ => (0 : ℝ)) 5 0
        (fun _ => (0 : ℝ)) = some g ∧ clamp_arg 5 0 g = some g :=
  seed_in_clamp_dom (fun _ lo _ => lo) (fun _ => (0 : ℝ)) 5 0 (fun _ => (0 : ℝ))
    (fun _ lo _ h => ⟨le_refl lo, h⟩) (fun _ => by norm_num) (by norm_num)

lemma eval_orthob_go_closed (sqrtF : F → F) (LegP : ℕ → F → F)
    (JacP : ℕ → ℕ → ℕ → F → F) (qdeg : ℕ) (a b c : F) :
    ∀ (fuel s : ℕ) (P2 P1 : F), P2 = ((1 : F)/2)^(2 * s + 1) →
      P1 = (1 - b)^(2 * s) →
      eval_orthob_go sqrtF LegP JacP qdeg a b c fuel (2 * s) P2 P1 =
      (List.range' s fuel).flatMap fun i2 =>
        (orthob_js qdeg (2 * i2)).flatMap fun j =>
          (orthob_ks qdeg (2 * i2) j).map fun k =>
            ((1 : F)/2)^(2 * i2 + 1) *
              sqrtF (((2 * (2 * i2) + 1) * (2 * k + 1) * (2 * i2 + j + 1) : ℕ) : F) *
              (1 - b)^(2 * i2) * LegP (2 * i2) a *
              JacP (2 * (2 * i2) + 1) 0 j b * LegP k c := by
  intro fuel
  induction fuel with
  | zero =>
    intro s P2 P1 h2 h1
    simp [eval_orthob_go]
  | succ fuel ih =>
    intro s P2 P1 h2 h1
    subst h2 h1
    simp only [eval_orthob_go]
    have e1 : ((1 : F)/2)^(2 * s + 1) / 4 = ((1 : F)/2)^(2 * (s + 1) + 1) := by
      ring
    have e2 : (1 - b)^(2 * s) * ((1 - b) * (1 - b)) = (1 - b)^(2 * (s + 1)) := by
      ring
    have e3 : 2 * s + 2 = 2 * (s + 1) := by omega
    rw [e3, ih (s + 1) _ _ e1 e2, List.range'_succ, List.flatMap_cons]

lemma eval_orthob_block_eq (sqrtF : F → F) (LegP : ℕ → F → F)
    (JacP : ℕ → ℕ → ℕ → F → F) (qdeg : ℕ) (p q r : F) :
    eval_orthob_block sqrtF LegP JacP qdeg p q r =
      (orthob_triples qdeg).map fun t =>
        ((1 : F)/2)^(t.1 + 1) *
          sqrtF (((2 * t.1 + 1) * (2 * t.2.2 + 1) * (t.1 + t.2.1 + 1) : ℕ) : F) *
          (1 - q)^t.1 * LegP t.1 (if q = 1 then 0 else 2 * (1 + p) / (1 - q) - 1) *
          JacP (2 * t.1 + 1) 0 t.2.1 q * LegP t.2.2 r := by
  have hgo := eval_orthob_go_closed sqrtF LegP JacP qdeg
    (if q = 1 then 0 else 2 * (1 + p) / (1 - q) - 1) q r (qdeg / 2 + 1) 0
    (1/2) 1 (by norm_num) (by norm_num)
  refine hgo.trans ?_
  simp only [orthob_triples, List.map_flatMap, List.map_map, List.range_eq_range',
    Function.comp_def]

/-- C2: every value `eval_orthob_block` emits for the index triple `(i, j, k)`
at the point `(p, q, r)` equals
`C_ijk * (1-q)^i * EvenLegendre_i(a) * Jacobi_j^(2i+1,0)(q) * EvenLegendre_k(r)`
with `C_ijk = 2^(-i-1) * sqrt((2i+1)(2k+1)(i+j+1))` and
`a = 2(1+p)/(1-q) - 1` when `q ≠ 1`, else `a = 0`: the recurrence-maintained
`pow2ip1` and `pow1mqi` equal the closed forms `2^(-i-1)` and `(1-q)^i` at
every outer iteration, for arbitrary scalar `sqrt` and polynomial evaluators. -/
theorem eval_orthob_block_closed_form (F : Type) [LinearOrderedField F]
    (sqrtF : F → F) (LegP : ℕ → F → F) (JacP : ℕ → ℕ → ℕ → F → F)
    (qdeg : ℕ) (p q r : F) :
    eval_orthob_block sqrtF LegP JacP qdeg p q r =
      (orthob_triples qdeg).map fun t =>
        ((1 : F)/2)^(t.1 + 1) *
          sqrtF (((2 * t.1 + 1) * (2 * t.2.2 + 1) * (t.1 + t.2.1 + 1) : ℕ) : F) *
          (1 - q)^t.1 * LegP t.1 (if q = 1 then 0 else 2 * (1 + p) / (1 - q) - 1) *
          JacP (2 * t.1 + 1) 0 t.2.1 q * LegP t.2.2 r :=
  eval_orthob_block_eq sqrtF LegP JacP qdeg p q r

/-- C3: for every degree `qdeg`, `nbfn_for_qdeg qdeg` equals the number of
rows `eval_orthob_block` fills (the final value of its running counter `off`),
for any point and any scalar collaborators, because both use the same nested
degree enumeration; in particular `nbfn_for_qdeg 0 = 1`. -/
theorem nbfn_matches_rows (F : Type) [LinearOrderedField F]
    (sqrtF : F → F) (LegP : ℕ → F → F) (JacP : ℕ → ℕ → ℕ → F → F)
    (qdeg : ℕ) (p q r : F) :
    (eval_orthob_block sqrtF LegP JacP qdeg p q r).length = nbfn_for_qdeg qdeg ∧
    nbfn_for_qdeg 0 = 1 := by
  constructor
  · rw [eval_orthob_block_eq, List.length_map]
    simp only [orthob_triples, orthob_js, orthob_ks, nbfn_for_qdeg,
      Function.comp_def, List.length_flatMap, List.map_map, List.length_map,
      List.length_range]
  · rfl

end Polyquad
